import Mathlib

/-!
Verification development for the TestApp todo repository: a React frontend
(`frontend/src/components/TodoForm.js`, `TodoList.js`, `App.js`) over an
Express/MongoDB backend.  The backend files `backend/routes/todos.js` and
`backend/models/Todo.js` implementing the Todo store are not present in the
repository snapshot (only `server.js`, the frontend, and deployment docs are),
so the store semantics are modelled from the specification (spec.md C3, C4.1);
the frontend form handler and the API server shape are embedded from source.
-/

namespace TestApp

/-- A JavaScript string value, modelled as its character sequence. -/
abbrev Str := List Char

/-- JavaScript `String.prototype.trim()`: the string with whitespace removed
from both ends. -/
def trimChars (s : Str) : Str :=
  ((s.dropWhile Char.isWhitespace).reverse.dropWhile Char.isWhitespace).reverse

/-- Modelled from the spec: the Todo entity (spec.md C3, `backend/models/Todo.js`
is absent from the snapshot).  Fields: opaque unique `_id` assigned by the
store, `title` text, `completed` boolean, `createdAt` ordering key.  Ids and
timestamps are modelled as naturals handed out by counters. -/
structure Todo where
  _id : Nat
  title : Str
  completed : Bool
  createdAt : Nat
deriving Repr, DecidableEq

/-- Modelled from the spec: the store state (spec.md C4.1, the store code
`backend/routes/todos.js` is absent from the snapshot).  `records` holds the
live Todo records newest-created-first; `nextId` and `nextStamp` are the
counters for fresh ids and creation timestamps. -/
structure Store where
  records : List Todo
  nextId : Nat
  nextStamp : Nat
deriving Repr, DecidableEq

/-- Modelled from the spec: the error taxonomy of spec.md C7. -/
inductive StoreError where
  | ValidationError
  | NotFoundError
  | StoreUnavailableError
deriving Repr, DecidableEq

/-- The store with no records and no ids handed out yet. -/
def Store.empty : Store := ⟨[], 0, 0⟩

/-- Modelled from the spec: `list()` returns all records ordered
newest-created-first (spec.md C4.1); `records` is kept in that order. -/
def Store.list (s : Store) : List Todo := s.records

/-- Modelled from the spec: `create(title)` (spec.md C4.1).  Fails with
`ValidationError` when the title is empty after trimming, leaving the store
unchanged; otherwise persists a new record with a fresh id,
`completed = false` and the next creation timestamp, newest-first. -/
def Store.create (s : Store) (title : Str) : Except StoreError Todo × Store :=
  if trimChars title = [] then
    (Except.error StoreError.ValidationError, s)
  else
    let t : Todo := ⟨s.nextId, title, false, s.nextStamp⟩
    (Except.ok t, ⟨t :: s.records, s.nextId + 1, s.nextStamp + 1⟩)

/-- A partial update request: any subset of `{title, completed}` may be
supplied (spec.md C4.1). -/
structure UpdateReq where
  title : Option Str
  completed : Option Bool
deriving Repr, DecidableEq

/-- Applies only the supplied fields of an update request to a record,
leaving the others untouched (spec.md C4.1). -/
def Todo.applyUpdate (t : Todo) (u : UpdateReq) : Todo :=
  { t with title := u.title.getD t.title, completed := u.completed.getD t.completed }

/-- Modelled from the spec: `update(id, {title?, completed?})` (spec.md C4.1).
Fails with `NotFoundError` when `id` references no record, leaving the store
unchanged; otherwise applies only the supplied fields to that record and
returns the merged record. -/
def Store.update (s : Store) (id : Nat) (u : UpdateReq) :
    Except StoreError Todo × Store :=
  match s.records.find? (fun r => r._id == id) with
  | none => (Except.error StoreError.NotFoundError, s)
  | some t =>
    let t' := t.applyUpdate u
    (Except.ok t',
     { s with records := s.records.map (fun r => if r._id == id then t' else r) })

/-- Modelled from the spec: `delete(id)` (spec.md C4.1).  Fails with
`NotFoundError` when `id` references no record, leaving the store unchanged;
otherwise removes the record permanently. -/
def Store.delete (s : Store) (id : Nat) : Except StoreError Unit × Store :=
  if s.records.any (fun r => r._id == id) then
    (Except.ok (), { s with records := s.records.filter (fun r => r._id != id) })
  else
    (Except.error StoreError.NotFoundError, s)

/-- One store operation, for reasoning about sequences of requests. -/
inductive Op where
  | create (title : Str)
  | update (id : Nat) (u : UpdateReq)
  | delete (id : Nat)
deriving Repr, DecidableEq

/-- The store state after performing one operation (its result discarded). -/
def Store.apply (s : Store) : Op → Store
  | Op.create t => (s.create t).2
  | Op.update i u => (s.update i u).2
  | Op.delete i => (s.delete i).2

/-- The store state after performing a sequence of operations in order. -/
def Store.run (s : Store) : List Op → Store :=
  List.foldl Store.apply s

/-- The well-formedness invariant of reachable store states: live ids are
pairwise distinct, and every id ever handed out (hence every live id) is
below `nextId`. -/
def Store.WF (s : Store) : Prop :=
  (s.records.map Todo._id).Nodup ∧ ∀ r ∈ s.records, r._id < s.nextId

instance (s : Store) : Decidable s.WF := by
  unfold Store.WF; infer_instance

/-- Embedded from `frontend/src/components/TodoForm.js` (`handleSubmit`):
`if (input.trim()) { onAdd(input); setInput(''); }` — a creation request
carrying the raw, untrimmed input is issued exactly when the input is
non-empty after trimming (a JavaScript string is truthy iff non-empty). -/
def handleSubmit (input : Str) : Option Str :=
  if trimChars input ≠ [] then some input else none

/-- An API request as it reaches the Express app of `backend/server.js`:
the routing-relevant data (method, optional `:id` path parameter, parsed JSON
body fields) together with the host metadata a reverse proxy may rewrite
(`Host`, `X-Forwarded-Host`, `X-Forwarded-Proto`). -/
structure ApiRequest where
  method : String
  id : Option Nat
  title : Option Str
  completed : Option Bool
  host : String
  xForwardedHost : String
  xForwardedProto : String
deriving Repr, DecidableEq

/-- Modelled from the spec: the API server's dispatch of `/api/todos`
requests to store operations and status codes (spec.md C4.2's table;
`backend/routes/todos.js` is absent from the snapshot).  The handler reads
only method, path id and body fields, never the host metadata. -/
def Server.handle (req : ApiRequest) (s : Store) : Nat × Store :=
  match req.method, req.id with
  | "GET", none => (200, s)
  | "POST", none =>
    match s.create (req.title.getD []) with
    | (Except.ok _, s') => (201, s')
    | (Except.error _, s') => (400, s')
  | "PUT", some i =>
    match s.update i ⟨req.title, req.completed⟩ with
    | (Except.ok _, s') => (200, s')
    | (Except.error _, s') => (404, s')
  | "DELETE", some i =>
    match s.delete i with
    | (Except.ok _, s') => (200, s')
    | (Except.error _, s') => (404, s')
  | _, _ => (404, s)

/-- The live ids of a store state. -/
def Store.ids (s : Store) : List Nat := s.records.map Todo._id

lemma Store.ids_apply_subset (s : Store) (op : Op) :
    ∀ i ∈ (s.apply op).ids, i ∈ s.ids ∨ i = s.nextId := by
  intro i hi
  cases op with
  | create t =>
    simp only [Store.apply, Store.create, Store.ids] at hi ⊢
    by_cases h : trimChars t = []
    · simp [h] at hi; exact Or.inl (by simpa using hi)
    · simp [h] at hi
      rcases hi with hi | hi
      · exact Or.inr hi
      · exact Or.inl (by simpa using hi)
  | update j u =>
    simp only [Store.apply, Store.update, Store.ids] at hi ⊢
    cases hfind : s.records.find? (fun r => r._id == j) with
    | none => simp [hfind] at hi; exact Or.inl (by simpa using hi)
    | some t =>
      have ht : t._id = j := by
        have := List.find?_some hfind
        simpa using this
      simp only [hfind, List.map_map] at hi
      rcases List.mem_map.mp hi with ⟨r, hr, hri⟩
      by_cases hid : r._id = j
      · simp only [Function.comp, hid, beq_self_eq_true, if_pos] at hri
        left
        have : i = t._id := by
          simpa [Todo.applyUpdate] using hri.symm
        rw [this, ht, ← hid]
        exact List.mem_map_of_mem Todo._id hr
      · simp only [Function.comp] at hri
        rw [if_neg (by simpa using hid)] at hri
        exact Or.inl (hri ▸ List.mem_map_of_mem Todo._id hr)
  | delete j =>
    simp only [Store.apply, Store.delete, Store.ids] at hi ⊢
    by_cases h : s.records.any (fun r => r._id == j)
    · simp only [h, if_pos] at hi
      rcases List.mem_map.mp hi with ⟨r, hr, hri⟩
      exact Or.inl (hri ▸ List.mem_map_of_mem Todo._id (List.mem_of_mem_filter hr))
    · simp only [h] at hi
      exact Or.inl (by simpa using hi)

lemma Store.nextId_apply_mono (s : Store) (op : Op) :
    s.nextId ≤ (s.apply op).nextId := by
  cases op with
  | create t =>
    simp only [Store.apply, Store.create]
    by_cases h : trimChars t = [] <;> simp [h]
  | update j u =>
    simp only [Store.apply, Store.update]
    cases hfind : s.records.find? (fun r => r._id == j) <;> simp [hfind]
  | delete j =>
    simp only [Store.apply, Store.delete]
    by_cases h : s.records.any (fun r => r._id == j) <;> simp [h]

lemma Store.update_snd_ids (s : Store) (j : Nat) (u : UpdateReq) :
    (s.update j u).2.ids = s.ids ∧ (s.update j u).2.nextId = s.nextId := by
  cases hfind : s.records.find? (fun r => r._id == j) with
  | none => simp [Store.update, hfind]
  | some t =>
    have ht : t._id = j := by simpa using List.find?_some hfind
    constructor
    · simp only [Store.update, hfind, Store.ids, List.map_map]
      apply List.map_congr_left
      intro r _
      by_cases h : r._id = j
      · simp [Function.comp, h, Todo.applyUpdate, ht]
      · simp [Function.comp, h]
    · simp [Store.update, hfind]

lemma Store.delete_snd_sublist (s : Store) (j : Nat) :
    (s.delete j).2.records.Sublist s.records ∧ (s.delete j).2.nextId = s.nextId := by
  by_cases h : s.records.any (fun r => r._id == j)
  · exact ⟨by simp [Store.delete, h, List.filter_sublist], by simp [Store.delete, h]⟩
  · exact ⟨by simp [Store.delete, h], by simp [Store.delete, h]⟩

lemma Store.WF_apply (s : Store) (op : Op) (h : s.WF) : (s.apply op).WF := by
  obtain ⟨hnd, hlt⟩ := h
  cases op with
  | create t =>
    by_cases ht : trimChars t = []
    · simpa [Store.apply, Store.create, ht] using ⟨hnd, hlt⟩
    · refine ⟨?_, ?_⟩
      · simp only [Store.apply, Store.create, ht, if_neg, List.map_cons]
        refine List.nodup_cons.mpr ⟨?_, hnd⟩
        intro hmem
        rcases List.mem_map.mp hmem with ⟨r, hr, hri⟩
        exact absurd (hri ▸ hlt r hr) (lt_irrefl _)
      · intro r hr
        simp only [Store.apply, Store.create, ht, if_neg] at hr ⊢
        rcases List.mem_cons.mp hr with hr | hr
        · simp [hr]
        · exact Nat.lt_succ_of_lt (hlt r hr)
  | update j u =>
    obtain ⟨hids, hnext⟩ := Store.update_snd_ids s j u
    have happ : s.apply (Op.update j u) = (s.update j u).2 := rfl
    rw [happ]
    refine ⟨?_, ?_⟩
    · have : ((s.update j u).2.records.map Todo._id) = s.records.map Todo._id := hids
      rw [this]; exact hnd
    · intro r hr
      have : r._id ∈ (s.update j u).2.ids := List.mem_map_of_mem Todo._id hr
      rw [hids] at this
      rcases List.mem_map.mp this with ⟨r', hr', hrr⟩
      rw [hnext, ← hrr]
      exact hlt r' hr'
  | delete j =>
    obtain ⟨hsub, hnext⟩ := Store.delete_snd_sublist s j
    have happ : s.apply (Op.delete j) = (s.delete j).2 := rfl
    rw [happ]
    refine ⟨?_, ?_⟩
    · exact List.Nodup.sublist (List.Sublist.map Todo._id hsub) hnd
    · intro r hr
      rw [hnext]
      exact hlt r (List.Sublist.mem hr hsub)

lemma Store.dead_apply (s : Store) (op : Op) (i : Nat)
    (hlt : i < s.nextId) (hd : i ∉ s.ids) :
    i ∉ (s.apply op).ids ∧ i < (s.apply op).nextId := by
  refine ⟨?_, lt_of_lt_of_le hlt (Store.nextId_apply_mono s op)⟩
  intro hmem
  rcases Store.ids_apply_subset s op i hmem with h | h
  · exact hd h
  · exact absurd (h ▸ hlt) (lt_irrefl _)

lemma Store.WF_run (s : Store) (ops : List Op) (h : s.WF) : (s.run ops).WF := by
  induction ops generalizing s with
  | nil => exact h
  | cons op rest ih => exact ih (s.apply op) (Store.WF_apply s op h)

lemma Store.dead_run (s : Store) (ops : List Op) (i : Nat)
    (hlt : i < s.nextId) (hd : i ∉ s.ids) :
    i ∉ (s.run ops).ids ∧ i < (s.run ops).nextId := by
  induction ops generalizing s with
  | nil => exact ⟨hd, hlt⟩
  | cons op rest ih =>
    obtain ⟨hd', hlt'⟩ := Store.dead_apply s op i hlt hd
    exact ih (s.apply op) hlt' hd'

lemma Store.update_not_found (s : Store) (i : Nat) (u : UpdateReq)
    (h : ∀ r ∈ s.records, r._id ≠ i) :
    s.update i u = (Except.error StoreError.NotFoundError, s) := by
  have hfind : s.records.find? (fun r => r._id == i) = none :=
    List.find?_eq_none.mpr (fun r hr => by simpa using h r hr)
  simp [Store.update, hfind]

lemma Store.delete_not_found (s : Store) (i : Nat)
    (h : ∀ r ∈ s.records, r._id ≠ i) :
    s.delete i = (Except.error StoreError.NotFoundError, s) := by
  have hany : s.records.any (fun r => r._id == i) = false := by
    simp only [List.any_eq_false]
    intro r hr
    simpa using h r hr
  simp [Store.delete, hany]

lemma Store.not_mem_ids (s : Store) (i : Nat) :
    i ∉ s.ids ↔ ∀ r ∈ s.records, r._id ≠ i := by
  simp only [Store.ids, List.mem_map, not_exists]
  constructor
  · intro h r hr hi
    exact h r ⟨hr, hi⟩
  · rintro h r ⟨hr, hi⟩
    exact h r hr hi

/-- C1: for every creation request whose title is empty or consists only of
whitespace, the create operation fails with `ValidationError` and no Todo
record is persisted — the resulting store, record set included, is exactly
the store before the request. -/
theorem create_empty_title_rejected (s : Store) (title : Str)
    (h : trimChars title = []) :
    Store.create s title = (Except.error StoreError.ValidationError, s) := by
  simp [Store.create, h]

/-- Witness for C1 at the empty store and a whitespace-only title. -/
theorem create_empty_title_rejected_witness :
    Store.create Store.empty "   ".toList
      = (Except.error StoreError.ValidationError, Store.empty) :=
  create_empty_title_rejected Store.empty "   ".toList (by decide)

/-- C2: from any store state, after creations A, then B, then C with valid
titles (and no intervening deletes), `list()` returns C, then B, then A, then
the earlier records, with strictly decreasing creation times; on the empty
store `list()` returns the empty sequence. -/
theorem list_newest_created_first (s : Store) (a b c : Str)
    (ha : trimChars a ≠ []) (hb : trimChars b ≠ []) (hc : trimChars c ≠ []) :
    (∃ ta tb tc,
      (((s.create a).2.create b).2.create c).2.list = tc :: tb :: ta :: s.list
      ∧ ta.title = a ∧ tb.title = b ∧ tc.title = c
      ∧ ta.createdAt < tb.createdAt ∧ tb.createdAt < tc.createdAt)
    ∧ Store.empty.list = [] := by
  refine ⟨⟨⟨s.nextId, a, false, s.nextStamp⟩,
          ⟨s.nextId + 1, b, false, s.nextStamp + 1⟩,
          ⟨s.nextId + 2, c, false, s.nextStamp + 2⟩, ?_⟩, rfl⟩
  simp [Store.create, Store.list, ha, hb, hc]

/-- Witness for C2 at the empty store with titles A, B, C. -/
theorem list_newest_created_first_witness :
    (∃ ta tb tc,
      (((Store.empty.create "A".toList).2.create "B".toList).2.create "C".toList).2.list
        = tc :: tb :: ta :: Store.empty.list
      ∧ ta.title = "A".toList ∧ tb.title = "B".toList ∧ tc.title = "C".toList
      ∧ ta.createdAt < tb.createdAt ∧ tb.createdAt < tc.createdAt)
    ∧ Store.empty.list = [] :=
  list_newest_created_first Store.empty "A".toList "B".toList "C".toList
    (by decide) (by decide) (by decide)

/-- C3: updating an existing record with any subset of `{title, completed}`
changes exactly the supplied fields of that record — id and creation time are
kept, an unsupplied field keeps its old value — and every record with a
different id is carried over untouched (and no record is added or removed). -/
theorem update_changes_only_supplied_fields (s : Store) (i : Nat)
    (u : UpdateReq) (t : Todo)
    (hfind : s.records.find? (fun r => r._id == i) = some t) :
    ∃ t',
      s.update i u
        = (Except.ok t',
           { s with records := s.records.map (fun r => if r._id == i then t' else r) })
      ∧ t'._id = t._id ∧ t'.createdAt = t.createdAt
      ∧ t'.title = u.title.getD t.title
      ∧ t'.completed = u.completed.getD t.completed
      ∧ (u.title = none → t'.title = t.title)
      ∧ (u.completed = none → t'.completed = t.completed)
      ∧ ∀ r ∈ s.records, r._id ≠ i → r ∈ (s.update i u).2.records := by
  refine ⟨t.applyUpdate u, ?_, rfl, rfl, rfl, rfl, ?_, ?_, ?_⟩
  · simp [Store.update, hfind]
  · intro h; simp [Todo.applyUpdate, h]
  · intro h; simp [Todo.applyUpdate, h]
  · intro r hr hri
    have : (if r._id == i then t.applyUpdate u else r) = r := by
      simp [hri]
    simp only [Store.update, hfind]
    exact this ▸ List.mem_map_of_mem (fun r => if r._id == i then t.applyUpdate u else r) hr

/-- Witness for C3: toggling only `completed` on a one-record store leaves
the title unchanged. -/
theorem update_changes_only_supplied_fields_witness :
    ∃ t',
      (Store.mk [⟨0, "milk".toList, false, 0⟩] 1 1).update 0 ⟨none, some true⟩
        = (Except.ok t',
           { Store.mk [⟨0, "milk".toList, false, 0⟩] 1 1 with
              records := [Todo.mk 0 "milk".toList false 0].map
                (fun r => if r._id == 0 then t' else r) })
      ∧ t'._id = (Todo.mk 0 "milk".toList false 0)._id
      ∧ t'.createdAt = (Todo.mk 0 "milk".toList false 0).createdAt
      ∧ t'.title = Option.getD none (Todo.mk 0 "milk".toList false 0).title
      ∧ t'.completed = Option.getD (some true) (Todo.mk 0 "milk".toList false 0).completed
      ∧ ((none : Option Str) = none → t'.title = "milk".toList)
      ∧ ((some true : Option Bool) = none → t'.completed = false)
      ∧ ∀ r ∈ [Todo.mk 0 "milk".toList false 0], r._id ≠ 0 →
          r ∈ ((Store.mk [⟨0, "milk".toList, false, 0⟩] 1 1).update 0 ⟨none, some true⟩).2.records :=
  update_changes_only_supplied_fields
    (Store.mk [⟨0, "milk".toList, false, 0⟩] 1 1) 0 ⟨none, some true⟩
    (Todo.mk 0 "milk".toList false 0) (by decide)

/-- C4: updating or deleting an id that references no existing record fails
with `NotFoundError` and leaves the store exactly unchanged; more generally,
every failed write (create, update or delete returning an error) leaves the
store exactly as it was, applying none of its requested change set. -/
theorem missing_id_write_fails_unchanged (s : Store) (i : Nat) (u : UpdateReq)
    (h : ∀ r ∈ s.records, r._id ≠ i) :
    s.update i u = (Except.error StoreError.NotFoundError, s)
    ∧ s.delete i = (Except.error StoreError.NotFoundError, s)
    ∧ (∀ title e s2, s.create title = (Except.error e, s2) → s2 = s)
    ∧ (∀ j v e s2, s.update j v = (Except.error e, s2) → s2 = s)
    ∧ (∀ j e s2, s.delete j = (Except.error e, s2) → s2 = s) := by
  refine ⟨Store.update_not_found s i u h, Store.delete_not_found s i h, ?_, ?_, ?_⟩
  · intro title e s2 hc
    by_cases ht : trimChars title = []
    · have := congrArg Prod.snd hc
      simpa [Store.create, ht] using this.symm
    · simp [Store.create, ht] at hc
  · intro j v e s2 hc
    cases hfind : s.records.find? (fun r => r._id == j) with
    | none =>
      have := congrArg Prod.snd hc
      simpa [Store.update, hfind] using this.symm
    | some t => simp [Store.update, hfind] at hc
  · intro j e s2 hc
    by_cases ha : s.records.any (fun r => r._id == j)
    · simp [Store.delete, ha] at hc
    · have := congrArg Prod.snd hc
      simpa [Store.delete, ha] using this.symm

/-- Witness for C4 at the empty store and id 5. -/
theorem missing_id_write_fails_unchanged_witness :
    Store.empty.update 5 ⟨none, none⟩
      = (Except.error StoreError.NotFoundError, Store.empty)
    ∧ Store.empty.delete 5 = (Except.error StoreError.NotFoundError, Store.empty)
    ∧ (∀ title e s2, Store.empty.create title = (Except.error e, s2) → s2 = Store.empty)
    ∧ (∀ j v e s2, Store.empty.update j v = (Except.error e, s2) → s2 = Store.empty)
    ∧ (∀ j e s2, Store.empty.delete j = (Except.error e, s2) → s2 = Store.empty) :=
  missing_id_write_fails_unchanged Store.empty 5 ⟨none, none⟩ (by decide)

/-- C5: after a successful `delete(id)` on a well-formed store, every later
reachable state — after any further sequence of operations — has a `list()`
excluding that id, and `update`/`delete` on that id fail with `NotFoundError`
without mutating the store; in particular a repeated delete of the same id
always fails the same way and never succeeds twice. -/
theorem delete_is_permanent (s s' : Store) (i : Nat) (ops : List Op)
    (u : UpdateReq) (hwf : s.WF) (hdel : s.delete i = (Except.ok (), s')) :
    i ∉ (s'.run ops).list.map Todo._id
    ∧ (s'.run ops).update i u = (Except.error StoreError.NotFoundError, s'.run ops)
    ∧ (s'.run ops).delete i = (Except.error StoreError.NotFoundError, s'.run ops) := by
  by_cases ha : s.records.any (fun r => r._id == i)
  · have hs' : s' = { s with records := s.records.filter (fun r => r._id != i) } := by
      have := congrArg Prod.snd hdel
      simpa [Store.delete, ha] using this.symm
    have hlt : i < s'.nextId := by
      rcases List.any_eq_true.mp ha with ⟨r, hr, hri⟩
      have : r._id = i := by simpa using hri
      rw [hs']
      exact this ▸ hwf.2 r hr
    have hd : i ∉ s'.ids := by
      rw [Store.not_mem_ids]
      intro r hr
      rw [hs'] at hr
      have := List.of_mem_filter hr
      simpa using this
    obtain ⟨hd', hlt'⟩ := Store.dead_run s' ops i hlt hd
    have hforall : ∀ r ∈ (s'.run ops).records, r._id ≠ i :=
      (Store.not_mem_ids _ i).mp hd'
    exact ⟨hd', Store.update_not_found _ i u hforall, Store.delete_not_found _ i hforall⟩
  · exfalso
    have := congrArg Prod.fst hdel
    simp [Store.delete, ha] at this

/-- Witness for C5: delete the sole record of a one-record store, then run a
further creation; the deleted id never reappears and later writes to it
fail. -/
theorem delete_is_permanent_witness :
    0 ∉ ((Store.mk [] 1 1).run [Op.create "y".toList]).list.map Todo._id
    ∧ ((Store.mk [] 1 1).run [Op.create "y".toList]).update 0 ⟨none, none⟩
        = (Except.error StoreError.NotFoundError,
           (Store.mk [] 1 1).run [Op.create "y".toList])
    ∧ ((Store.mk [] 1 1).run [Op.create "y".toList]).delete 0
        = (Except.error StoreError.NotFoundError,
           (Store.mk [] 1 1).run [Op.create "y".toList]) :=
  delete_is_permanent (Store.mk [⟨0, "x".toList, false, 0⟩] 1 1) (Store.mk [] 1 1)
    0 [Op.create "y".toList] ⟨none, none⟩ (by decide) rfl

/-- C6: creating with a title that is non-empty after trimming succeeds and
returns a record with `completed = false`, the raw title, and a freshly
assigned id distinct from the id of every other live record; the record is
persisted. -/
theorem create_valid_title_fresh_id (s : Store) (title : Str)
    (hwf : s.WF) (h : trimChars title ≠ []) :
    ∃ t s', s.create title = (Except.ok t, s')
      ∧ t.completed = false
      ∧ t.title = title
      ∧ (∀ r ∈ s.records, r._id ≠ t._id)
      ∧ t ∈ s'.records := by
  refine ⟨⟨s.nextId, title, false, s.nextStamp⟩,
          ⟨⟨s.nextId, title, false, s.nextStamp⟩ :: s.records,
           s.nextId + 1, s.nextStamp + 1⟩, ?_, rfl, rfl, ?_, List.mem_cons_self _ _⟩
  · simp [Store.create, h]
  · intro r hr hid
    exact absurd (hid ▸ hwf.2 r hr) (lt_irrefl _)

/-- Witness for C6 at the empty store with title "Buy milk". -/
theorem create_valid_title_fresh_id_witness :
    ∃ t s', Store.empty.create "Buy milk".toList = (Except.ok t, s')
      ∧ t.completed = false
      ∧ t.title = "Buy milk".toList
      ∧ (∀ r ∈ Store.empty.records, r._id ≠ t._id)
      ∧ t ∈ s'.records :=
  create_valid_title_fresh_id Store.empty "Buy milk".toList (by decide) (by decide)

/-- C7: in every store state reachable from the empty store, live ids are
pairwise distinct (two live records with the same id are the same record),
and an id that has been handed out and is no longer live — as after a delete
— never reappears in any further reachable state: ids are never reused. -/
theorem id_unique_never_reused (ops more : List Op) (i : Nat)
    (hlt : i < (Store.empty.run ops).nextId)
    (hdead : i ∉ (Store.empty.run ops).ids) :
    ((Store.empty.run ops).ids.Nodup
    ∧ ∀ r1 ∈ (Store.empty.run ops).records, ∀ r2 ∈ (Store.empty.run ops).records,
        r1._id = r2._id → r1 = r2)
    ∧ i ∉ ((Store.empty.run ops).run more).ids := by
  have hwf : (Store.empty.run ops).WF := Store.WF_run Store.empty ops (by decide)
  refine ⟨⟨hwf.1, ?_⟩, (Store.dead_run _ more i hlt hdead).1⟩
  intro r1 h1 r2 h2 hid
  exact List.inj_on_of_nodup_map hwf.1 h1 h2 hid

/-- Witness for C7: create a record, delete it, then create again; the
retired id 0 does not come back. -/
theorem id_unique_never_reused_witness :
    ((Store.empty.run [Op.create "a".toList, Op.delete 0]).ids.Nodup
    ∧ ∀ r1 ∈ (Store.empty.run [Op.create "a".toList, Op.delete 0]).records,
      ∀ r2 ∈ (Store.empty.run [Op.create "a".toList, Op.delete 0]).records,
        r1._id = r2._id → r1 = r2)
    ∧ 0 ∉ ((Store.empty.run [Op.create "a".toList, Op.delete 0]).run
            [Op.create "b".toList]).ids :=
  id_unique_never_reused [Op.create "a".toList, Op.delete 0]
    [Op.create "b".toList] 0 (by decide) (by decide)

/-- C8: on a well-formed store, an update request supplying neither `title`
nor `completed` is a no-op: it succeeds, returns the found record unchanged,
and leaves the store state exactly equal to the state before the update. -/
theorem update_empty_request_noop (s : Store) (i : Nat) (t : Todo)
    (hwf : s.WF) (hfind : s.records.find? (fun r => r._id == i) = some t) :
    s.update i ⟨none, none⟩ = (Except.ok t, s) := by
  have ht : t._id = i := by simpa using List.find?_some hfind
  have htm : t ∈ s.records := List.mem_of_find?_eq_some hfind
  have happ : t.applyUpdate ⟨none, none⟩ = t := rfl
  have hmap : s.records.map
      (fun r => if r._id == i then t else r) = s.records := by
    have hpt : ∀ r ∈ s.records, (if r._id == i then t else r) = id r := by
      intro r hr
      by_cases hcase : r._id = i
      · have hrt : r = t :=
          List.inj_on_of_nodup_map hwf.1 hr htm (by rw [hcase, ht])
        simp [hcase, hrt]
      · simp [hcase]
    rw [List.map_congr_left hpt, List.map_id]
  simp only [Store.update, hfind, happ, hmap]

/-- Witness for C8 on a one-record store. -/
theorem update_empty_request_noop_witness :
    (Store.mk [⟨0, "a".toList, false, 0⟩] 1 1).update 0 ⟨none, none⟩
      = (Except.ok (Todo.mk 0 "a".toList false 0),
         Store.mk [⟨0, "a".toList, false, 0⟩] 1 1) :=
  update_empty_request_noop (Store.mk [⟨0, "a".toList, false, 0⟩] 1 1) 0
    (Todo.mk 0 "a".toList false 0) (by decide) (by decide)

/-- C9: the API server's request handling reads only the method, the `:id`
path parameter and the JSON body fields; two well-formed requests that agree
on those but differ arbitrarily in `Host`, `X-Forwarded-Host` and
`X-Forwarded-Proto` — as after rewriting by a reverse proxy — produce the
same response status and the same store state, so no request is rejected
solely because its host metadata was proxy-rewritten. -/
theorem handle_independent_of_host_metadata (m : String) (i : Option Nat)
    (t : Option Str) (c : Option Bool) (s : Store)
    (h1 h2 f1 f2 p1 p2 : String) :
    Server.handle ⟨m, i, t, c, h1, f1, p1⟩ s
      = Server.handle ⟨m, i, t, c, h2, f2, p2⟩ s := rfl

/-- C10: the todo form issues a creation request exactly when the typed
input is non-empty after trimming, and the title it submits is the raw,
untrimmed input string — surrounding whitespace is preserved. -/
theorem form_submits_raw_input_iff_nonblank (input : Str) :
    ((∃ t, handleSubmit input = some t) ↔ trimChars input ≠ [])
    ∧ ∀ t, handleSubmit input = some t → t = input := by
  constructor
  · constructor
    · rintro ⟨t, ht⟩ hblank
      simp [handleSubmit, hblank] at ht
    · intro h
      exact ⟨input, by simp [handleSubmit, h]⟩
  · intro t ht
    by_cases h : trimChars input = []
    · simp [handleSubmit, h] at ht
    · simp [handleSubmit, h] at ht
      exact ht.symm

end TestApp
